import Mathlib

/-!
Verification of `leaderboards/grade_leaderboard.py` (GradeLeaderboardXBlock).

The Python module is shallowly embedded: JSON values become an inductive
type, the XBlock's persisted fields become a state record, and each method
becomes a Lean function that mirrors the source line by line.  Machine-level
concerns that the claims do not touch (the host runtime's rendering,
persistence transport, i18n translation tables) are modelled as parameters.
-/

namespace GradeLeaderboard

/-- A JSON value as produced by Python's `json` module: `null`, booleans,
integer literals (`int`), numbers with a fractional part (`float`, modelled
exactly as rationals), strings, arrays and objects. -/
inductive JValue where
  | jnull
  | jbool (b : Bool)
  | jint (n : Int)
  | jfloat (q : Rat)
  | jstr (s : String)
  | jarr (elems : List JValue)
  | jobj (fields : List (String × JValue))

/-- Python truthiness of a JSON value: `None`, `False`, `0`, `0.0`, `""`,
`[]` and `{}` are falsy, everything else is truthy. -/
def pyFalsy : JValue → Bool
  | .jnull => true
  | .jbool b => !b
  | .jint n => n == 0
  | .jfloat q => q == 0
  | .jstr s => s == ""
  | .jarr elems => elems.isEmpty
  | .jobj fields => fields.isEmpty

/-- Python truthiness of an optional JSON value (`None` for the absent case),
as tested by `if not self.graded_target_id`. -/
def pyFalsyOpt : Option JValue → Bool
  | none => true
  | some v => pyFalsy v

/-- `dict.get(key)` on a JSON object built by insertion order: a repeated key
keeps its last value, an absent key yields `None`. -/
def jsonGet (data : List (String × JValue)) (key : String) : Option JValue :=
  data.foldl (fun acc kv => if kv.1 = key then some kv.2 else acc) none

/-- The two Python exception classes relevant to `int(...)`: `ValueError`
(string does not parse, or the explicit `raise ValueError`) and `TypeError`
(the argument's type is not accepted by `int`, e.g. `None`, lists, dicts). -/
inductive PyErr where
  | valueError
  | typeError
deriving DecidableEq

/-- Tail of an integer literal after its first digit: digits with single
underscores allowed between digits (Python 3.6+), no trailing underscore. -/
def usTail : List Char → Bool
  | [] => true
  | '_' :: [] => false
  | '_' :: c :: rest => c.isDigit && usTail (c :: rest)
  | c :: rest => c.isDigit && usTail rest

/-- An unsigned integer literal accepted by Python's `int(str)`: nonempty,
starts with a digit, then `usTail`. -/
def intLit : List Char → Bool
  | [] => false
  | c :: rest => c.isDigit && usTail rest

/-- Numeric value of a digit string, underscores skipped. -/
def digitsVal (cs : List Char) : Nat :=
  (cs.filter (fun c => c != '_')).foldl (fun n c => 10 * n + (c.toNat - 48)) 0

/-- `str.strip()` of the character list: leading and trailing whitespace
removed. -/
def stripChars (cs : List Char) : List Char :=
  ((cs.dropWhile Char.isWhitespace).reverse.dropWhile Char.isWhitespace).reverse

/-- Python `int(s)` for a string `s`: surrounding whitespace is stripped, an
optional sign precedes an ASCII decimal literal; anything else raises
`ValueError`.  (CPython additionally accepts non-ASCII decimal digits; the
claims never exercise those, so the model is restricted to ASCII.) -/
def pyIntOfStr (s : String) : Except PyErr Int :=
  match stripChars s.toList with
  | '+' :: rest => if intLit rest then .ok (digitsVal rest) else .error .valueError
  | '-' :: rest => if intLit rest then .ok (-(digitsVal rest : Int)) else .error .valueError
  | rest => if intLit rest then .ok (digitsVal rest) else .error .valueError

/-- Python `int(x)` on a JSON value: ints pass through, booleans convert to
0/1, floats truncate toward zero, strings parse via `pyIntOfStr`; `None`,
arrays and objects raise `TypeError`. -/
def pyIntOfJson : JValue → Except PyErr Int
  | .jint n => .ok n
  | .jbool b => .ok (if b then 1 else 0)
  | .jfloat q => .ok (if 0 ≤ q then ⌊q⌋ else ⌈q⌉)
  | .jstr s => pyIntOfStr s
  | .jnull => .error .typeError
  | .jarr _ => .error .typeError
  | .jobj _ => .error .typeError

/-- The persisted fields of a `GradeLeaderboardXBlock`: `display_name` and
`grades_cache` declared in this class, `count` inherited from
`LeaderboardXBlock`, and `graded_target_id` (a `Reference`, `None` when
unset; handler-submitted values are JSON values). -/
structure BlockState where
  display_name : String
  graded_target_id : Option JValue
  grades_cache : List (String × JValue)
  count : Int

/-- Outcome of the `studio_submit` JSON handler: a JSON-object success body,
a `JsonHandlerError(status_code, message)`, or an uncaught Python exception
propagating out of the handler. -/
inductive SubmitResult where
  | ok (body : List (String × JValue))
  | jsonHandlerError (code : Nat) (message : String)
  | uncaught (e : PyErr)

/-- The 400 message of `studio_submit`. -/
def submitErrMsg : String := "\x27count\x27 must be an integer and greater than 0."

/-- The `studio_submit` handler.  `countDefault` stands for
`LeaderboardXBlock.count.default` (declared in `leaderboard.py`, outside this
module).  `int(data.get('count', default))` raising `ValueError` — including
the explicit `raise ValueError` when the converted count is not `> 0` — is
caught and turned into the 400 `JsonHandlerError`; a `TypeError` from `int`
is not caught and propagates.  On success the handler assigns `self.count`
and `self.graded_target_id` (a falsy submitted target becomes `None`) and
returns `{}`. -/
def studio_submit (countDefault : Int) (st : BlockState)
    (data : List (String × JValue)) : SubmitResult × BlockState :=
  match (match jsonGet data "count" with
         | some v => pyIntOfJson v
         | none => Except.ok countDefault) with
  | .error .valueError => (.jsonHandlerError 400 submitErrMsg, st)
  | .error .typeError => (.uncaught .typeError, st)
  | .ok count =>
    if count ≤ 0 then
      (.jsonHandlerError 400 submitErrMsg, st)
    else
      let graded_target_id :=
        match jsonGet data "graded_target_id" with
        | none => none
        | some v => if pyFalsy v then none else some v
      (.ok [], { st with count := count, graded_target_id := graded_target_id })

/-- The claim C1's classification of a 'count' value: non-positive integer, or
not a (JSON) integer at all. -/
def countBadPerClaim : JValue → Bool
  | .jint n => n ≤ 0
  | _ => true

/-- Whether a submit outcome is the 400 `JsonHandlerError` with the handler's
message (decidable classifier, used to state disequalities without a
`DecidableEq` instance for JSON values). -/
def isCountError400 : SubmitResult → Bool
  | .jsonHandlerError code msg => code == 400 && msg == submitErrMsg
  | _ => false

/-- Severity levels of `xblock.validation.ValidationMessage`. -/
inductive Severity where
  | warning
  | error
deriving DecidableEq

/-- A `ValidationMessage(severity, text)`. -/
structure VMessage where
  severity : Severity
  text : String
deriving DecidableEq

/-- Text of the warning added when no graded activity is chosen. -/
def noTargetWarning : String :=
  "A graded activity must be chosen as a basis for the leaderboard."

/-- Text of the error added when the chosen graded activity does not resolve. -/
def badTargetError : String :=
  "The graded activity specified could not be found."

/-- A block of the host runtime's course tree, as read by `studio_view` and
`validate`: `display_name` (absent attribute modelled as `none`), the block
type reported by `runtime.id_reader.get_block_type`, the usage id,
`has_score`, `has_children`, `has_dynamic_children` (absent attribute
defaults to a constant-`False` lambda, so a plain `Bool` suffices), and the
child blocks (`runtime.get_block` applied to `block.children` is modelled by
storing the children directly). -/
inductive BlockTree where
  | mk (display_name : Option String) (block_type : String) (usage_id : String)
      (has_score : Bool) (has_children : Bool) (has_dynamic_children : Bool)
      (children : List BlockTree)

/-- `validate`: appends to the messages of `super().validate()` (the `base`
parameter, since `LeaderboardXBlock.validate` lives outside this module) a
translated warning when `graded_target_id` is falsy, else a translated error
when `runtime.get_block(graded_target_id)` is falsy (`get_block` returns a
block object — always truthy — or `None`, modelled as `Option BlockTree`).
`ugettext` is the i18n service's translation function. -/
def validate (ugettext : String → String) (base : List VMessage)
    (get_block : JValue → Option BlockTree) (st : BlockState) : List VMessage :=
  match st.graded_target_id with
  | none => base ++ [⟨.warning, ugettext noTargetWarning⟩]
  | some v =>
    if pyFalsy v then base ++ [⟨.warning, ugettext noTargetWarning⟩]
    else
      match get_block v with
      | none => base ++ [⟨.error, ugettext badTargetError⟩]
      | some _ => base

/-- A grade-source strategy class (`EdxLmsGradeSource`, `MockGradeSource`,
defined in `grade_source/`, outside this module).  The instance is
constructed from the block (`grade_source_type(self)`), so both methods
receive the block state; `get_grades(graded_target_id, count)` additionally
receives the target and the count.  `α` is the (opaque) type of the returned
grades. -/
structure GradeSource (α : Type) where
  is_supported : BlockState → Bool
  get_grades : BlockState → JValue → Int → α

/-- `GRADE_SOURCES`: the ordered tuple `(EdxLmsGradeSource, MockGradeSource)`,
abstracted over the two collaborator classes. -/
def GRADE_SOURCES {α : Type} (edx mock : GradeSource α) : List (GradeSource α) :=
  [edx, mock]

/-- The `for grade_source_type in self.GRADE_SOURCES` loop of `get_scores`:
first supported source wins; falling off the loop raises
`RuntimeError("No grade sources available.")` (errors are modelled by their
message string). -/
def get_scores_loop {α : Type} (st : BlockState) (target : JValue) :
    List (GradeSource α) → Except String α
  | [] => .error "No grade sources available."
  | s :: rest =>
    if s.is_supported st then .ok (s.get_grades st target st.count)
    else get_scores_loop st target rest

/-- `get_scores`: raises `RuntimeError("graded_target_id not set.")` when the
target is falsy, otherwise delegates to the first supported source. -/
def get_scores {α : Type} (sources : List (GradeSource α)) (st : BlockState) :
    Except String α :=
  match st.graded_target_id with
  | none => .error "graded_target_id not set."
  | some v =>
    if pyFalsy v then .error "graded_target_id not set."
    else get_scores_loop st v sources

/-- An entry of the `flat_block_tree` list built by `studio_view`:
`{"depth": ..., "id": ..., "name": ..., "eligible": ..., "is_this": ...}`. -/
structure Entry where
  depth : Nat
  id : String
  name : String
  eligible : Bool
  is_this : Bool
deriving DecidableEq

instance : Inhabited Entry := ⟨⟨0, "", "", false, false⟩⟩

/-- `normalize_id`: strips branch and version decorations from a usage key.
Model keys are plain strings carrying neither, so both `hasattr` branches
are no-ops and the function is the identity. -/
def normalize_id (key : String) : String := key

/-- The entry at index `i` of the flat list (entries are only ever read at
indices the traversal has already appended). -/
def entryAt (t : List Entry) (i : Nat) : Entry := t.getD i default

/-- `ancestor["eligible"] = True` for a single ancestor entry. -/
def setElig (t : List Entry) (a : Nat) : List Entry :=
  t.set a { entryAt t a with eligible := true }

/-- The `for ancestor in ancestors: ancestor["eligible"] = True` loop;
ancestors are represented by their indices in the flat list (Python shares
the dicts between `ancestors` and `flat_block_tree`, so mutating an ancestor
mutates the flat list's entry). -/
def markAncestors (t : List Entry) (anc : List Nat) : List Entry :=
  anc.foldl setElig t

/-- Fallback display name `"{} ({})".format(block_type, usage_id)`. -/
def fallbackName (bt uid : String) : String := bt ++ " (" ++ uid ++ ")"

/-- `block_name` of `build_tree`: the block's `display_name` when the
attribute exists and is truthy, else the `fallbackName`. -/
def blockName (dn : Option String) (bt uid : String) : String :=
  match dn with
  | some n => if n = "" then fallbackName bt uid else n
  | none => fallbackName bt uid

/-- The marking step of `build_tree`: when this block is eligible
(`has_score`) and the nearest ancestor (`ancestors[-1]`) is not yet
eligible, every ancestor entry is marked eligible. -/
def markStep (tree : List Entry) (ancestors : List Nat) (eligible : Bool) :
    List Entry :=
  if eligible then
    match ancestors.getLast? with
    | some a =>
      if (entryAt tree a).eligible = false then markAncestors tree ancestors
      else tree
    | none => tree
  else tree

/-- The `new_entry` dict of `build_tree`: depth is the number of ancestors,
id is the normalized usage id, name is `blockName`, eligibility is
`has_score`, and `is_this` compares the normalized id with the block's own
normalized id. -/
def newEntry (own_id : String) (dn : Option String) (bt uid : String)
    (hs : Bool) (ancestors : List Nat) : Entry :=
  { depth := ancestors.length, id := normalize_id uid,
    name := blockName dn bt uid, eligible := hs,
    is_this := normalize_id uid == own_id }

mutual

/-- `build_tree(block, ancestors)` of `studio_view`, with the mutable
`flat_block_tree` threaded explicitly: computes the block's name (falsy
`display_name` falls back to `fallbackName`), marks all ancestors eligible
when this block `has_score` and the nearest ancestor is not yet eligible
(`markStep`), appends the new entry, and recurses into children when the
block has non-dynamic children. -/
def build_tree (own_id : String) (block : BlockTree) (ancestors : List Nat)
    (tree : List Entry) : List Entry :=
  match block with
  | .mk dn bt uid hs hc hdc children =>
    let tree1 := markStep tree ancestors hs
    let tree2 := tree1 ++ [newEntry own_id dn bt uid hs ancestors]
    if hc && !hdc then
      build_forest own_id children (ancestors ++ [tree1.length]) tree2
    else tree2

/-- The `for child_id in block.children` loop of `build_tree`. -/
def build_forest (own_id : String) (blocks : List BlockTree) (ancestors : List Nat)
    (tree : List Entry) : List Entry :=
  match blocks with
  | [] => tree
  | b :: bs => build_forest own_id bs ancestors (build_tree own_id b ancestors tree)

end

/-- Children of a block. -/
def BlockTree.children : BlockTree → List BlockTree
  | .mk _ _ _ _ _ _ cs => cs

/-- The `flat_block_tree` produced by `studio_view`: the root block (found by
walking up the parent chain, supplied here directly) is excluded, and
`build_tree` runs over each of its immediate children with no ancestors. -/
def studio_view_tree (own_id : String) (root : BlockTree) : List Entry :=
  build_forest own_id root.children [] []

/-- Depth of the flat-list entry at index `i`. -/
def dAt (t : List Entry) (i : Nat) : Nat := (entryAt t i).depth

/-- Eligibility flag of the flat-list entry at index `i`. -/
def eAt (t : List Entry) (i : Nat) : Bool := (entryAt t i).eligible

/-- Entry `i` is an ancestor of entry `j` in the flat pre-order list: `i`
precedes `j` and every entry after `i` up to and including `j` lies strictly
deeper than `i`. -/
def posAncestor (t : List Entry) (i j : Nat) : Prop :=
  i < j ∧ j < t.length ∧ ∀ k ≤ j, i < k → dAt t i < dAt t k

instance decPosAncestor (t : List Entry) (i j : Nat) :
    Decidable (posAncestor t i j) := by
  unfold posAncestor; infer_instance

/-- Eligibility propagates upward in the flat tree: an entry with an
eligible descendant is itself eligible. -/
def UpClosed (t : List Entry) : Prop :=
  ∀ i j, posAncestor t i j → eAt t j = true → eAt t i = true

/-- Invariant tying the `ancestors` argument of `build_tree` to the flat
list built so far: the ancestor indices are in range, the `i`-th ancestor
sits at depth `i`, every entry appended after an ancestor is strictly deeper
than it, and eligibility is upward-closed along the ancestor chain. -/
structure ChainInv (t : List Entry) (anc : List Nat) : Prop where
  bound : ∀ i (h : i < anc.length), anc[i] < t.length
  depthAt : ∀ i (h : i < anc.length), dAt t anc[i] = i
  after : ∀ i (h : i < anc.length), ∀ k, anc[i] < k → k < t.length → i < dAt t k
  chain : ∀ i j (hi : i < anc.length) (hj : j < anc.length), i ≤ j →
    eAt t anc[j] = true → eAt t anc[i] = true

/-- Full invariant of the traversal. -/
def Inv (t : List Entry) (anc : List Nat) : Prop := ChainInv t anc ∧ UpClosed t

/-- How one traversal step may extend the flat list: it only appends, keeps
the depths of existing entries, and every appended entry is at least `d`
deep. -/
def Grows (t t' : List Entry) (d : Nat) : Prop :=
  t.length ≤ t'.length ∧
  (∀ k, k < t.length → dAt t' k = dAt t k) ∧
  (∀ k, t.length ≤ k → k < t'.length → d ≤ dAt t' k)

/-- A concrete block state with the declared field defaults. -/
def st0 : BlockState := ⟨"Grade Leaderboard", none, [], 10⟩

/-- A concrete block state whose graded target is set. -/
def stSet : BlockState := ⟨"Grade Leaderboard", some (JValue.jstr "block-v1"), [], 10⟩

/-- A concrete host block. -/
def blk0 : BlockTree := .mk (some "Problem") "problem" "block-v1" true false false []

/-- A concrete grade source returning a tagged value. -/
def srcConst (supported : Bool) (tag : Nat) : GradeSource Nat :=
  ⟨fun _ => supported, fun _ _ _ => tag⟩

/-- A concrete scored leaf block. -/
def leaf0 : BlockTree := .mk (some "Problem") "problem" "p1" true false false []

/-- A concrete unscored section block containing `leaf0`. -/
def chap0 : BlockTree := .mk (some "Section") "chapter" "sec1" false true false [leaf0]

/-- A concrete course root containing `chap0`. -/
def root0 : BlockTree := .mk none "course" "crs" false true false [chap0]

/-! ## Theorems about `studio_submit` -/

/-- C1 (counterexample): the payload `{"count": null}` has a 'count' value
that is not an integer, yet the handler does not fail with the 400
`JsonHandlerError`: `int(None)` raises `TypeError`, which the handler's
`except ValueError` does not catch, so the exception propagates uncaught. -/
theorem C1_counterexample :
    countBadPerClaim JValue.jnull = true ∧
    isCountError400 (studio_submit 10 st0 [("count", JValue.jnull)]).1 = false :=
  ⟨rfl, rfl⟩

/-- C1 (amended): for every payload carrying a 'count' value, the handler
fails with the 400 error carrying the message exactly when Python's `int()`
raises `ValueError` on that value (non-numeric strings) or converts it to a
non-positive integer; values `int()` rejects with `TypeError` (null, arrays,
objects) propagate as an uncaught exception instead of a 400, and any value
`int()` converts to a positive integer — booleans, floats, numeric strings
included — is accepted. -/
theorem C1_count_error_iff (dflt : Int) (st : BlockState)
    (data : List (String × JValue)) (v : JValue)
    (hv : jsonGet data "count" = some v) :
    ((studio_submit dflt st data).1 = .jsonHandlerError 400 submitErrMsg ↔
      pyIntOfJson v = .error .valueError ∨ ∃ n, pyIntOfJson v = .ok n ∧ n ≤ 0) ∧
    (pyIntOfJson v = .error .typeError →
      (studio_submit dflt st data).1 = .uncaught .typeError) := by
  unfold studio_submit
  rw [hv]
  rcases h : pyIntOfJson v with e | n
  · cases e <;> simp [h]
  · by_cases hn : n ≤ 0 <;> simp [h, hn]

/-- C1 witness: the amended characterization evaluated at `{"count": 0}`. -/
theorem C1_count_error_iff_witness :
    jsonGet [("count", JValue.jint 0)] "count" = some (JValue.jint 0) ∧
    (((studio_submit 10 st0 [("count", JValue.jint 0)]).1 =
        SubmitResult.jsonHandlerError 400 submitErrMsg ↔
      pyIntOfJson (JValue.jint 0) = Except.error PyErr.valueError ∨
        ∃ n, pyIntOfJson (JValue.jint 0) = Except.ok n ∧ n ≤ 0) ∧
     (pyIntOfJson (JValue.jint 0) = Except.error PyErr.typeError →
      (studio_submit 10 st0 [("count", JValue.jint 0)]).1 =
        SubmitResult.uncaught PyErr.typeError)) :=
  ⟨rfl, C1_count_error_iff 10 st0 [("count", JValue.jint 0)] (JValue.jint 0) rfl⟩

/-- C2: every payload the handler accepts produces the empty dictionary as
success body, leaves `display_name` and `grades_cache` untouched, and sets
exactly the two persisted fields: `count` becomes the positive integer the
payload's 'count' converted to (or the inherited default when absent), and
`graded_target_id` becomes either `None` or the payload's truthy target
value. -/
theorem C2_success_frame (dflt : Int) (st : BlockState)
    (data : List (String × JValue)) (body : List (String × JValue))
    (st' : BlockState) (h : studio_submit dflt st data = (.ok body, st')) :
    body = [] ∧
    st'.display_name = st.display_name ∧
    st'.grades_cache = st.grades_cache ∧
    (∃ n : Int, 0 < n ∧ st'.count = n ∧
      (match jsonGet data "count" with
       | some v => pyIntOfJson v
       | none => Except.ok dflt) = .ok n) ∧
    (st'.graded_target_id = none ∨
      ∃ v, st'.graded_target_id = some v ∧ pyFalsy v = false ∧
        jsonGet data "graded_target_id" = some v) := by
  unfold studio_submit at h
  rcases hc : (match jsonGet data "count" with
               | some v => pyIntOfJson v
               | none => Except.ok dflt) with e | n
  · rw [hc] at h; cases e <;> simp at h
  · rw [hc] at h
    by_cases hn : n ≤ 0
    · simp [hn] at h
    · simp only [hn, if_neg, if_false] at h
      obtain ⟨h1, h2⟩ := Prod.mk.injEq .. ▸ h
      refine ⟨(SubmitResult.ok.injEq .. ▸ h1).symm, ?_, ?_, ?_, ?_⟩
      · rw [← h2]
      · rw [← h2]
      · exact ⟨n, lt_of_not_le hn, by rw [← h2], hc⟩
      · rcases hg : jsonGet data "graded_target_id" with _ | v
        · left; rw [← h2]; simp [hg]
        · by_cases hf : pyFalsy v
          · left; rw [← h2]; simp [hg, hf]
          · right; exact ⟨v, by rw [← h2]; simp [hg, hf], by simpa using hf, rfl⟩

/-- C2 witness: the frame property at the payload
`{"count": 5, "graded_target_id": "block-v1"}`. -/
theorem C2_success_frame_witness :
    studio_submit 10 st0 [("count", JValue.jint 5), ("graded_target_id", JValue.jstr "block-v1")] =
      (SubmitResult.ok [], ⟨"Grade Leaderboard", some (JValue.jstr "block-v1"), [], 5⟩) ∧
    ((⟨"Grade Leaderboard", some (JValue.jstr "block-v1"), [], 5⟩ : BlockState).display_name =
        st0.display_name ∧
     (⟨"Grade Leaderboard", some (JValue.jstr "block-v1"), [], 5⟩ : BlockState).grades_cache =
        st0.grades_cache) :=
  ⟨rfl,
   ((C2_success_frame 10 st0
      [("count", JValue.jint 5), ("graded_target_id", JValue.jstr "block-v1")] []
      ⟨"Grade Leaderboard", some (JValue.jstr "block-v1"), [], 5⟩ rfl).2.1),
   ((C2_success_frame 10 st0
      [("count", JValue.jint 5), ("graded_target_id", JValue.jstr "block-v1")] []
      ⟨"Grade Leaderboard", some (JValue.jstr "block-v1"), [], 5⟩ rfl).2.2.1)⟩

/-- C3: whenever the handler accepts a payload whose 'graded_target_id' is
absent or falsy (empty string, null, false, 0, empty array or object), the
stored `graded_target_id` is `None` — in particular never the empty
string. -/
theorem C3_falsy_target_cleared (dflt : Int) (st : BlockState)
    (data : List (String × JValue)) (body : List (String × JValue))
    (st' : BlockState) (h : studio_submit dflt st data = (.ok body, st'))
    (hg : jsonGet data "graded_target_id" = none ∨
      ∃ v, jsonGet data "graded_target_id" = some v ∧ pyFalsy v = true) :
    st'.graded_target_id = none := by
  rcases C2_success_frame dflt st data body st' h with ⟨-, -, -, -, hopt | ⟨v, hv, hnf, hvg⟩⟩
  · exact hopt
  · rcases hg with hnone | ⟨w, hw, hwf⟩
    · rw [hnone] at hvg; cases hvg
    · rw [hw] at hvg; cases hvg; rw [hnf] at hwf; cases hwf

/-- C3 witness: submitting an empty-string target stores `None`. -/
theorem C3_falsy_target_cleared_witness :
    studio_submit 10 st0 [("count", JValue.jint 5), ("graded_target_id", JValue.jstr "")] =
      (SubmitResult.ok [], ⟨"Grade Leaderboard", none, [], 5⟩) ∧
    (⟨"Grade Leaderboard", none, [], 5⟩ : BlockState).graded_target_id = none :=
  ⟨rfl,
   C3_falsy_target_cleared 10 st0
     [("count", JValue.jint 5), ("graded_target_id", JValue.jstr "")] []
     ⟨"Grade Leaderboard", none, [], 5⟩ rfl
     (Or.inr ⟨JValue.jstr "", rfl, rfl⟩)⟩

/-- C7: when the handler raises the 400 `JsonHandlerError`, the block state
is untouched — the raise happens before either field assignment. -/
theorem C7_error_atomic (dflt : Int) (st : BlockState)
    (data : List (String × JValue)) (code : Nat) (msg : String)
    (h : (studio_submit dflt st data).1 = .jsonHandlerError code msg) :
    (studio_submit dflt st data).2 = st := by
  unfold studio_submit at h ⊢
  rcases hc : (match jsonGet data "count" with
               | some v => pyIntOfJson v
               | none => Except.ok dflt) with e | n
  · rw [hc]; cases e <;> rfl
  · rw [hc] at h ⊢
    by_cases hn : n ≤ 0
    · simp [hn]
    · simp [hn] at h

/-- C7 witness: atomicity at the rejected payload `{"count": 0}`. -/
theorem C7_error_atomic_witness :
    (studio_submit 10 st0 [("count", JValue.jint 0)]).1 =
      SubmitResult.jsonHandlerError 400 submitErrMsg ∧
    (studio_submit 10 st0 [("count", JValue.jint 0)]).2 = st0 :=
  ⟨rfl, C7_error_atomic 10 st0 [("count", JValue.jint 0)] 400 submitErrMsg rfl⟩

/-- C9: a payload without 'count' is accepted whenever the inherited field
default (`LeaderboardXBlock.count.default`, a positive integer upstream) is
positive, and that default is stored as the new `count`. -/
theorem C9_absent_count_default (dflt : Int) (st : BlockState)
    (data : List (String × JValue)) (hd : 0 < dflt)
    (hc : jsonGet data "count" = none) :
    (studio_submit dflt st data).1 = .ok [] ∧
    (studio_submit dflt st data).2.count = dflt := by
  unfold studio_submit
  rw [hc]
  simp [not_le.mpr hd]

/-- C9 witness: the empty payload with default 10 stores count 10. -/
theorem C9_absent_count_default_witness :
    (0 : Int) < 10 ∧ jsonGet ([] : List (String × JValue)) "count" = none ∧
    ((studio_submit 10 st0 []).1 = SubmitResult.ok [] ∧
     (studio_submit 10 st0 []).2.count = 10) :=
  ⟨by decide, rfl, C9_absent_count_default 10 st0 [] (by decide) rfl⟩

/-! ## Theorems about `validate` and `get_scores` -/

/-- C4: `validate` appends to the inherited messages a warning when
`graded_target_id` is falsy; an error when it is truthy but
`runtime.get_block` cannot resolve it; and nothing when it resolves. -/
theorem C4_validate_messages (u : String → String) (base : List VMessage)
    (gb : JValue → Option BlockTree) (st : BlockState) :
    (pyFalsyOpt st.graded_target_id = true →
       validate u base gb st = base ++ [⟨.warning, u noTargetWarning⟩]) ∧
    (∀ v, st.graded_target_id = some v → pyFalsy v = false → gb v = none →
       validate u base gb st = base ++ [⟨.error, u badTargetError⟩]) ∧
    (∀ v b, st.graded_target_id = some v → pyFalsy v = false → gb v = some b →
       validate u base gb st = base) := by
  refine ⟨?_, ?_, ?_⟩
  · intro hf
    unfold validate
    rcases hg : st.graded_target_id with _ | v
    · rfl
    · rw [hg] at hf; simp only [pyFalsyOpt] at hf; simp [hf]
  · intro v hv hnf hnb
    unfold validate
    rw [hv]; simp [hnf, hnb]
  · intro v b hv hnf hb
    unfold validate
    rw [hv]; simp [hnf, hb]

/-- C4 witness: the three branches evaluated on concrete states and hosts. -/
theorem C4_validate_messages_witness :
    validate id [] (fun _ => none) st0 = [⟨Severity.warning, noTargetWarning⟩] ∧
    validate id [] (fun _ => none) stSet = [⟨Severity.error, badTargetError⟩] ∧
    validate id [] (fun _ => some blk0) stSet = [] :=
  ⟨(C4_validate_messages id [] (fun _ => none) st0).1 rfl,
   (C4_validate_messages id [] (fun _ => none) stSet).2.1
     (JValue.jstr "block-v1") rfl rfl rfl,
   (C4_validate_messages id [] (fun _ => some blk0) stSet).2.2
     (JValue.jstr "block-v1") blk0 rfl rfl rfl⟩

/-- C5: with a truthy target, `get_scores` over the ordered sources
`(EdxLmsGradeSource, MockGradeSource)` returns the grades of the edX source
whenever it is supported — independently of the mock source, which is then
never consulted — and the grades of the mock source when only it is
supported. -/
theorem C5_first_match {α : Type} (edx mock : GradeSource α) (st : BlockState)
    (v : JValue) (hv : st.graded_target_id = some v) (hnf : pyFalsy v = false) :
    (edx.is_supported st = true →
       get_scores (GRADE_SOURCES edx mock) st = .ok (edx.get_grades st v st.count) ∧
       ∀ mock' : GradeSource α,
         get_scores (GRADE_SOURCES edx mock') st = .ok (edx.get_grades st v st.count)) ∧
    (edx.is_supported st = false → mock.is_supported st = true →
       get_scores (GRADE_SOURCES edx mock) st = .ok (mock.get_grades st v st.count)) := by
  unfold get_scores
  rw [hv]
  refine ⟨fun he => ⟨?_, fun mock' => ?_⟩, fun he hm => ?_⟩
  · simp [hnf, GRADE_SOURCES, get_scores_loop, he]
  · simp [hnf, GRADE_SOURCES, get_scores_loop, he]
  · simp [hnf, GRADE_SOURCES, get_scores_loop, he, hm]


/-- C5 witness: with both sources supported the first one's grades are
returned, and swapping the second source changes nothing. -/
theorem C5_first_match_witness :
    stSet.graded_target_id = some (JValue.jstr "block-v1") ∧
    pyFalsy (JValue.jstr "block-v1") = false ∧
    (get_scores (GRADE_SOURCES (srcConst true 1) (srcConst true 2)) stSet =
       .ok ((srcConst true 1).get_grades stSet (JValue.jstr "block-v1") stSet.count) ∧
     ∀ mock' : GradeSource Nat,
       get_scores (GRADE_SOURCES (srcConst true 1) mock') stSet =
         .ok ((srcConst true 1).get_grades stSet (JValue.jstr "block-v1") stSet.count)) :=
  ⟨rfl, rfl,
   (C5_first_match (srcConst true 1) (srcConst true 2) stSet
      (JValue.jstr "block-v1") rfl rfl).1 rfl⟩

/-- C6: `get_scores` raises exactly in two cases — falsy target (message
"graded_target_id not set.") or no supported source in `GRADE_SOURCES`
(message "No grade sources available."); with a truthy target and a
supported source it returns the delegated grades. -/
theorem C6_error_cases {α : Type} (edx mock : GradeSource α) (st : BlockState) :
    ((∃ e, get_scores (GRADE_SOURCES edx mock) st = .error e) ↔
       (pyFalsyOpt st.graded_target_id = true ∨
        (edx.is_supported st = false ∧ mock.is_supported st = false))) ∧
    (∀ e, get_scores (GRADE_SOURCES edx mock) st = .error e →
       e = "graded_target_id not set." ∨ e = "No grade sources available.") ∧
    (∀ v, st.graded_target_id = some v → pyFalsy v = false →
       (edx.is_supported st = true ∨ mock.is_supported st = true) →
       get_scores (GRADE_SOURCES edx mock) st =
         .ok (if edx.is_supported st then edx.get_grades st v st.count
              else mock.get_grades st v st.count)) := by
  unfold get_scores
  refine ⟨?_, ?_, ?_⟩
  · rcases hg : st.graded_target_id with _ | v
    · simp [pyFalsyOpt]
    · simp only [pyFalsyOpt]
      by_cases hf : pyFalsy v
      · simp [hf]
      · simp only [hf, if_neg, if_false, Bool.false_eq_true, false_or]
        by_cases he : edx.is_supported st <;>
          by_cases hm : mock.is_supported st <;>
            simp [GRADE_SOURCES, get_scores_loop, he, hm]
  · intro e
    rcases hg : st.graded_target_id with _ | v
    · intro h; left; cases h; rfl
    · by_cases hf : pyFalsy v
      · simp only [hf, if_pos]
        intro h; left; cases h; rfl
      · simp only [hf, if_neg, if_false]
        by_cases he : edx.is_supported st <;>
          by_cases hm : mock.is_supported st <;>
            simp [GRADE_SOURCES, get_scores_loop, he, hm]
        all_goals exact fun h => Or.inr h.symm
  · intro v hv hnf hsup
    rw [hv]
    rcases hsup with he | hm
    · simp [hnf, GRADE_SOURCES, get_scores_loop, he]
    · by_cases he : edx.is_supported st <;>
        simp [hnf, GRADE_SOURCES, get_scores_loop, he, hm]

/-- C6 witness: the exact-two-error-cases characterization evaluated with no
supported source, and the delegation clause with a supported mock source. -/
theorem C6_error_cases_witness :
    ((∃ e, get_scores (GRADE_SOURCES (srcConst false 1) (srcConst false 2)) stSet = .error e) ↔
       (pyFalsyOpt stSet.graded_target_id = true ∨
        ((srcConst false 1).is_supported stSet = false ∧
         (srcConst false 2).is_supported stSet = false))) ∧
    get_scores (GRADE_SOURCES (srcConst false 1) (srcConst true 2)) stSet = .ok 2 :=
  ⟨(C6_error_cases (srcConst false 1) (srcConst false 2) stSet).1,
   (C6_error_cases (srcConst false 1) (srcConst true 2) stSet).2.2
     (JValue.jstr "block-v1") rfl rfl (Or.inr rfl)⟩

/-! ## Auxiliary lemmas about the flat list built by `studio_view` -/

theorem entryAt_append_left (t l : List Entry) (k : Nat) (h : k < t.length) :
    entryAt (t ++ l) k = entryAt t k :=
  List.getD_append t l default k h

theorem entryAt_concat_self (t : List Entry) (e : Entry) :
    entryAt (t ++ [e]) t.length = e := by
  unfold entryAt
  rw [List.getD_eq_getElem?_getD, List.getElem?_concat_length]
  rfl

theorem length_setElig (t : List Entry) (a : Nat) :
    (setElig t a).length = t.length :=
  List.length_set t a _

theorem entryAt_setElig_ne (t : List Entry) (a k : Nat) (h : k ≠ a) :
    entryAt (setElig t a) k = entryAt t k := by
  unfold setElig entryAt
  rw [List.getD_eq_getElem?_getD, List.getElem?_set_ne (Ne.symm h),
    List.getD_eq_getElem?_getD]

theorem entryAt_setElig_self (t : List Entry) (a : Nat) (h : a < t.length) :
    entryAt (setElig t a) a = { entryAt t a with eligible := true } := by
  unfold setElig entryAt
  rw [List.getD_eq_getElem?_getD, List.getElem?_set_self h]
  rfl

theorem dAt_setElig (t : List Entry) (a k : Nat) :
    dAt (setElig t a) k = dAt t k := by
  by_cases hk : k = a
  · subst hk
    by_cases hl : k < t.length
    · unfold dAt; rw [entryAt_setElig_self t k hl]
    · unfold dAt setElig; rw [List.set_eq_of_length_le (le_of_not_lt hl)]
  · unfold dAt; rw [entryAt_setElig_ne t a k hk]

theorem eAt_setElig_mono (t : List Entry) (a k : Nat) (h : eAt t k = true) :
    eAt (setElig t a) k = true := by
  by_cases hk : k = a
  · subst hk
    by_cases hl : k < t.length
    · unfold eAt; rw [entryAt_setElig_self t k hl]
    · unfold eAt setElig; rw [List.set_eq_of_length_le (le_of_not_lt hl)]
      exact h
  · unfold eAt; rw [entryAt_setElig_ne t a k hk]; exact h

theorem eAt_setElig_ne (t : List Entry) (a k : Nat) (h : k ≠ a) :
    eAt (setElig t a) k = eAt t k := by
  unfold eAt; rw [entryAt_setElig_ne t a k h]

theorem eAt_setElig_self (t : List Entry) (a : Nat) (h : a < t.length) :
    eAt (setElig t a) a = true := by
  unfold eAt; rw [entryAt_setElig_self t a h]

theorem length_mark (anc : List Nat) (t : List Entry) :
    (markAncestors t anc).length = t.length := by
  induction anc generalizing t with
  | nil => rfl
  | cons a rest ih =>
    show (markAncestors (setElig t a) rest).length = t.length
    rw [ih (setElig t a), length_setElig]

theorem dAt_mark (anc : List Nat) (t : List Entry) (k : Nat) :
    dAt (markAncestors t anc) k = dAt t k := by
  induction anc generalizing t with
  | nil => rfl
  | cons a rest ih =>
    show dAt (markAncestors (setElig t a) rest) k = dAt t k
    rw [ih (setElig t a), dAt_setElig]

theorem eAt_mark_not_mem (anc : List Nat) (t : List Entry) (k : Nat)
    (h : k ∉ anc) : eAt (markAncestors t anc) k = eAt t k := by
  induction anc generalizing t with
  | nil => rfl
  | cons a rest ih =>
    show eAt (markAncestors (setElig t a) rest) k = eAt t k
    rw [ih (setElig t a) (fun hr => h (List.mem_cons_of_mem a hr)),
      eAt_setElig_ne t a k (fun he => h (he ▸ List.mem_cons_self a rest))]

theorem eAt_mark_mono (anc : List Nat) (t : List Entry) (k : Nat)
    (h : eAt t k = true) : eAt (markAncestors t anc) k = true := by
  induction anc generalizing t with
  | nil => exact h
  | cons a rest ih =>
    show eAt (markAncestors (setElig t a) rest) k = true
    exact ih (setElig t a) (eAt_setElig_mono t a k h)

theorem eAt_mark_mem (anc : List Nat) (t : List Entry) (k : Nat)
    (hmem : k ∈ anc) (hk : k < t.length) :
    eAt (markAncestors t anc) k = true := by
  induction anc generalizing t with
  | nil => cases hmem
  | cons a rest ih =>
    show eAt (markAncestors (setElig t a) rest) k = true
    rcases List.mem_cons.mp hmem with rfl | hr
    · exact eAt_mark_mono rest (setElig t k) k (eAt_setElig_self t k hk)
    · exact ih (setElig t a) hr (by rw [length_setElig]; exact hk)

theorem posAncestor_of_eq {t t' : List Entry} (hlen : t'.length = t.length)
    (hd : ∀ k, dAt t' k = dAt t k) {i j : Nat} (h : posAncestor t' i j) :
    posAncestor t i j :=
  ⟨h.1, hlen ▸ h.2.1, fun k hk hik => by
    rw [← hd i, ← hd k]; exact h.2.2 k hk hik⟩

theorem ChainInv.increasing {t : List Entry} {anc : List Nat}
    (ci : ChainInv t anc) {i j : Nat} (hi : i < anc.length)
    (hj : j < anc.length) (hij : i < j) : anc[i] < anc[j] := by
  rcases lt_trichotomy anc[i] anc[j] with h | h | h
  · exact h
  · exfalso
    have hdi := ci.depthAt i hi
    rw [h, ci.depthAt j hj] at hdi
    omega
  · exfalso
    have := ci.after j hj anc[i] h (ci.bound i hi)
    rw [ci.depthAt i hi] at this
    omega

theorem ChainInv.eq_getElem_of_dominated {t : List Entry} {anc : List Nat}
    (ci : ChainInv t anc) (x B : Nat) (hxB : x < B) (hBt : B ≤ t.length)
    (hk : ∀ k, x < k → k < B → dAt t x < dAt t k)
    (hd : dAt t x < anc.length) (hAB : anc[dAt t x] < B) :
    x = anc[dAt t x] := by
  rcases lt_trichotomy anc[dAt t x] x with h | h | h
  · exfalso
    have := ci.after (dAt t x) hd x h (lt_of_lt_of_le hxB hBt)
    omega
  · exact h.symm
  · exfalso
    have h2 := hk anc[dAt t x] h hAB
    rw [ci.depthAt (dAt t x) hd] at h2
    omega

theorem Inv_mark {t : List Entry} {anc : List Nat} (inv : Inv t anc) :
    Inv (markAncestors t anc) anc ∧
    (∀ i (h : i < anc.length), eAt (markAncestors t anc) anc[i] = true) := by
  obtain ⟨ci, up⟩ := inv
  have hlen := length_mark anc t
  have hdep : ∀ k, dAt (markAncestors t anc) k = dAt t k := dAt_mark anc t
  have hmarked : ∀ i (h : i < anc.length), eAt (markAncestors t anc) anc[i] = true :=
    fun i h => eAt_mark_mem anc t anc[i] (List.getElem_mem h) (ci.bound i h)
  refine ⟨⟨⟨?_, ?_, ?_, ?_⟩, ?_⟩, hmarked⟩
  · intro i h; rw [hlen]; exact ci.bound i h
  · intro i h; rw [hdep]; exact ci.depthAt i h
  · intro i h k hk hkl; rw [hdep]; exact ci.after i h k hk (hlen ▸ hkl)
  · intro i j hi hj hij _; exact hmarked i hi
  · intro x y hxy hey
    have hxy' : posAncestor t x y := posAncestor_of_eq hlen hdep hxy
    have hxt : x < t.length := lt_trans hxy'.1 hxy'.2.1
    by_cases hxanc : x ∈ anc
    · exact eAt_mark_mem anc t x hxanc hxt
    · by_cases hyanc : y ∈ anc
      · exfalso
        obtain ⟨j, hj, hyj⟩ := List.mem_iff_getElem.mp hyanc
        have hdy : dAt t y = j := by rw [← hyj]; exact ci.depthAt j hj
        have hdx : dAt t x < j := by
          have := hxy'.2.2 y (le_refl y) hxy'.1
          rw [hdy] at this
          exact this
        have hdx' : dAt t x < anc.length := lt_trans hdx hj
        have hlt : anc[dAt t x] < y := by
          rw [← hyj]; exact ci.increasing hdx' hj hdx
        have hyt : y < t.length := hxy'.2.1
        have hxlty : x < y := hxy'.1
        have heq := ci.eq_getElem_of_dominated x (y + 1) (by omega)
          (by omega) (fun k h1 h2 => hxy'.2.2 k (by omega) h1) hdx' (by omega)
        exact hxanc (by rw [heq]; exact List.getElem_mem hdx')
      · have h1 : eAt t y = true := by
          rw [← eAt_mark_not_mem anc t y hyanc]; exact hey
        rw [eAt_mark_not_mem anc t x hxanc]
        exact up x y hxy' h1

theorem markStep_spec {t : List Entry} {anc : List Nat} (inv : Inv t anc)
    (elig : Bool) :
    Inv (markStep t anc elig) anc ∧
    (markStep t anc elig).length = t.length ∧
    (∀ k, dAt (markStep t anc elig) k = dAt t k) ∧
    (elig = true →
      ∀ i (h : i < anc.length), eAt (markStep t anc elig) anc[i] = true) := by
  cases elig with
  | false =>
    refine ⟨inv, rfl, fun k => rfl, ?_⟩
    intro h; cases h
  | true =>
    rcases hLast : anc.getLast? with _ | a
    · have hanc : anc = [] := List.getLast?_eq_none_iff.mp hLast
      subst hanc
      refine ⟨inv, ?_, ?_, ?_⟩ <;> simp [markStep]
    · by_cases hE : (entryAt t a).eligible = false
      · have hms : markStep t anc true = markAncestors t anc := by
          unfold markStep; rw [hLast]; simp [hE]
        rw [hms]
        obtain ⟨invm, hmk⟩ := Inv_mark inv
        exact ⟨invm, length_mark anc t, dAt_mark anc t, fun _ => hmk⟩
      · have hms : markStep t anc true = t := by
          unfold markStep; rw [hLast]; simp [hE]
        rw [hms]
        have hne : anc ≠ [] := by
          intro h; rw [h] at hLast; cases hLast
        have hlpos : 0 < anc.length := List.length_pos.mpr hne
        have ha : a = anc[anc.length - 1] := by
          rw [List.getLast?_eq_getLast anc hne, List.getLast_eq_getElem anc hne]
            at hLast
          exact (Option.some.injEq _ _ ▸ hLast).symm
        have haE : eAt t anc[anc.length - 1] = true := by
          rw [← ha]
          unfold eAt
          exact eq_true_of_ne_false hE
        refine ⟨inv, rfl, fun k => rfl, fun _ i hi => ?_⟩
        exact inv.1.chain i (anc.length - 1) hi (by omega) (by omega) haE

theorem dAt_concat_lt (t : List Entry) (e : Entry) (k : Nat) (h : k < t.length) :
    dAt (t ++ [e]) k = dAt t k := by
  unfold dAt; rw [entryAt_append_left t [e] k h]

theorem dAt_concat_self (t : List Entry) (e : Entry) :
    dAt (t ++ [e]) t.length = e.depth := by
  unfold dAt; rw [entryAt_concat_self]

theorem eAt_concat_lt (t : List Entry) (e : Entry) (k : Nat) (h : k < t.length) :
    eAt (t ++ [e]) k = eAt t k := by
  unfold eAt; rw [entryAt_append_left t [e] k h]

theorem eAt_concat_self (t : List Entry) (e : Entry) :
    eAt (t ++ [e]) t.length = e.eligible := by
  unfold eAt; rw [entryAt_concat_self]

theorem Inv_push {t : List Entry} {anc : List Nat} (inv : Inv t anc) (e : Entry)
    (hdep : e.depth = anc.length)
    (helig : e.eligible = true → ∀ i (h : i < anc.length), eAt t anc[i] = true) :
    Inv (t ++ [e]) (anc ++ [t.length]) := by
  obtain ⟨ci, up⟩ := inv
  have hlen2 : (t ++ [e]).length = t.length + 1 := by simp
  have hanc2 : (anc ++ [t.length]).length = anc.length + 1 := by simp
  have hglast : ∀ (h : anc.length < (anc ++ [t.length]).length),
      (anc ++ [t.length])[anc.length] = t.length :=
    fun h => List.getElem_concat_length anc t.length anc.length rfl h
  refine ⟨⟨?_, ?_, ?_, ?_⟩, ?_⟩
  · intro i h
    by_cases hi : i < anc.length
    · rw [List.getElem_append_left hi, hlen2]
      have := ci.bound i hi; omega
    · have hieq : i = anc.length := by rw [hanc2] at h; omega
      subst hieq
      rw [hglast h, hlen2]; omega
  · intro i h
    by_cases hi : i < anc.length
    · rw [List.getElem_append_left hi, dAt_concat_lt t e _ (ci.bound i hi)]
      exact ci.depthAt i hi
    · have hieq : i = anc.length := by rw [hanc2] at h; omega
      subst hieq
      rw [hglast h, dAt_concat_self, hdep]
  · intro i h k hk hkl
    rw [hlen2] at hkl
    by_cases hi : i < anc.length
    · rw [List.getElem_append_left hi] at hk
      by_cases hkt : k < t.length
      · rw [dAt_concat_lt t e k hkt]
        exact ci.after i hi k hk hkt
      · have hkeq : k = t.length := by omega
        subst hkeq
        rw [dAt_concat_self, hdep]; omega
    · have hieq : i = anc.length := by rw [hanc2] at h; omega
      subst hieq
      rw [hglast h] at hk
      omega
  · intro i j hi hj hij hej
    by_cases hjlt : j < anc.length
    · have hilt : i < anc.length := lt_of_le_of_lt hij hjlt
      rw [List.getElem_append_left hjlt,
        eAt_concat_lt t e _ (ci.bound j hjlt)] at hej
      rw [List.getElem_append_left hilt,
        eAt_concat_lt t e _ (ci.bound i hilt)]
      exact ci.chain i j hilt hjlt hij hej
    · have hjeq : j = anc.length := by rw [hanc2] at hj; omega
      subst hjeq
      rw [hglast hj, eAt_concat_self] at hej
      by_cases hilt : i < anc.length
      · rw [List.getElem_append_left hilt,
          eAt_concat_lt t e _ (ci.bound i hilt)]
        exact helig hej i hilt
      · have hieq : i = anc.length := by omega
        subst hieq
        rw [hglast hi, eAt_concat_self]
        exact hej
  · intro x y hxy hey
    have hylen : y < t.length + 1 := hlen2 ▸ hxy.2.1
    have hxlty : x < y := hxy.1
    by_cases hyt : y < t.length
    · have hxt : x < t.length := lt_trans hxlty hyt
      have hxy' : posAncestor t x y := by
        refine ⟨hxlty, hyt, fun k hk hik => ?_⟩
        have := hxy.2.2 k hk hik
        rwa [dAt_concat_lt t e x hxt, dAt_concat_lt t e k (lt_of_le_of_lt hk hyt)]
          at this
      rw [eAt_concat_lt t e y hyt] at hey
      rw [eAt_concat_lt t e x hxt]
      exact up x y hxy' hey
    · have hyeq : y = t.length := by omega
      subst hyeq
      rw [eAt_concat_self] at hey
      have hxt : x < t.length := hxlty
      have hdx : dAt t x < anc.length := by
        have := hxy.2.2 t.length (le_refl _) hxlty
        rwa [dAt_concat_lt t e x hxt, dAt_concat_self, hdep] at this
      have heq := ci.eq_getElem_of_dominated x t.length hxt (le_refl _)
        (fun k h1 h2 => by
          have := hxy.2.2 k (le_of_lt h2) h1
          rwa [dAt_concat_lt t e x hxt, dAt_concat_lt t e k h2] at this)
        hdx (ci.bound (dAt t x) hdx)
      rw [eAt_concat_lt t e x hxt, heq]
      exact helig hey (dAt t x) hdx

theorem ChainInv_restrict {t : List Entry} {anc : List Nat} {n : Nat}
    (ci : ChainInv t (anc ++ [n])) : ChainInv t anc := by
  have hanc2 : (anc ++ [n]).length = anc.length + 1 := by simp
  refine ⟨?_, ?_, ?_, ?_⟩
  · intro i h
    have h2 : i < (anc ++ [n]).length := by omega
    have := ci.bound i h2
    rwa [List.getElem_append_left h] at this
  · intro i h
    have h2 : i < (anc ++ [n]).length := by omega
    have := ci.depthAt i h2
    rwa [List.getElem_append_left h] at this
  · intro i h k hk hkl
    have h2 : i < (anc ++ [n]).length := by omega
    refine ci.after i h2 k ?_ hkl
    rwa [List.getElem_append_left h]
  · intro i j hi hj hij he
    have h2i : i < (anc ++ [n]).length := by omega
    have h2j : j < (anc ++ [n]).length := by omega
    have := ci.chain i j h2i h2j hij
      (by rwa [List.getElem_append_left hj])
    rwa [List.getElem_append_left hi] at this

theorem Grows_refl (t : List Entry) (d : Nat) : Grows t t d :=
  ⟨le_refl _, fun _ _ => rfl, fun k h1 h2 => absurd h2 (by omega)⟩

theorem Grows_trans {t t' t'' : List Entry} {d : Nat}
    (g1 : Grows t t' d) (g2 : Grows t' t'' d) : Grows t t'' d := by
  obtain ⟨l1, d1, a1⟩ := g1
  obtain ⟨l2, d2, a2⟩ := g2
  refine ⟨le_trans l1 l2, ?_, ?_⟩
  · intro k hk
    rw [d2 k (lt_of_lt_of_le hk l1), d1 k hk]
  · intro k h1 h2
    by_cases hk : k < t'.length
    · rw [d2 k hk]
      exact a1 k h1 hk
    · exact a2 k (le_of_not_lt hk) h2

theorem Grows_weaken {t t' : List Entry} {d d' : Nat} (hd : d ≤ d')
    (g : Grows t t' d') : Grows t t' d :=
  ⟨g.1, g.2.1, fun k h1 h2 => le_trans hd (g.2.2 k h1 h2)⟩

mutual

theorem build_tree_inv (o : String) (b : BlockTree) (anc : List Nat)
    (t : List Entry) (inv : Inv t anc) :
    Inv (build_tree o b anc t) anc ∧ Grows t (build_tree o b anc t) anc.length := by
  cases b with
  | mk dn bt uid hs hc hdc children =>
    obtain ⟨inv1, hlen1, hd1, hmk1⟩ := markStep_spec inv hs
    have hpush : Inv (markStep t anc hs ++ [newEntry o dn bt uid hs anc])
        (anc ++ [(markStep t anc hs).length]) :=
      Inv_push inv1 (newEntry o dn bt uid hs anc) rfl (fun hhs => hmk1 hhs)
    have hg2 : Grows t (markStep t anc hs ++ [newEntry o dn bt uid hs anc])
        anc.length := by
      refine ⟨?_, ?_, ?_⟩
      · simp [hlen1]
      · intro k hk
        rw [dAt_concat_lt _ _ k (by rw [hlen1]; exact hk), hd1 k]
      · intro k h1 h2
        have hlen2 : (markStep t anc hs ++ [newEntry o dn bt uid hs anc]).length
            = t.length + 1 := by simp [hlen1]
        have hk : k = t.length := by rw [hlen2] at h2; omega
        subst hk
        rw [show t.length = (markStep t anc hs).length from hlen1.symm,
          dAt_concat_self]
        exact le_refl _
    have hbt : build_tree o (.mk dn bt uid hs hc hdc children) anc t =
        (if hc && !hdc then
          build_forest o children (anc ++ [(markStep t anc hs).length])
            (markStep t anc hs ++ [newEntry o dn bt uid hs anc])
        else markStep t anc hs ++ [newEntry o dn bt uid hs anc]) := rfl
    by_cases hcc : (hc && !hdc) = true
    · rw [hbt, if_pos hcc]
      obtain ⟨invr, gr⟩ := build_forest_inv o children
        (anc ++ [(markStep t anc hs).length])
        (markStep t anc hs ++ [newEntry o dn bt uid hs anc]) hpush
      refine ⟨⟨ChainInv_restrict invr.1, invr.2⟩, ?_⟩
      have hanc2 : (anc ++ [(markStep t anc hs).length]).length
          = anc.length + 1 := by simp
      rw [hanc2] at gr
      exact Grows_trans hg2 (Grows_weaken (Nat.le_succ _) gr)
    · rw [hbt, if_neg hcc]
      exact ⟨⟨ChainInv_restrict hpush.1, hpush.2⟩, hg2⟩

theorem build_forest_inv (o : String) (bs : List BlockTree) (anc : List Nat)
    (t : List Entry) (inv : Inv t anc) :
    Inv (build_forest o bs anc t) anc ∧
    Grows t (build_forest o bs anc t) anc.length := by
  cases bs with
  | nil => exact ⟨inv, Grows_refl t anc.length⟩
  | cons b rest =>
    have hbf : build_forest o (b :: rest) anc t =
        build_forest o rest anc (build_tree o b anc t) := rfl
    rw [hbf]
    obtain ⟨inv1, g1⟩ := build_tree_inv o b anc t inv
    obtain ⟨inv2, g2⟩ := build_forest_inv o rest anc (build_tree o b anc t) inv1
    exact ⟨inv2, Grows_trans g1 g2⟩

end

/-- C8: in the flat block tree produced by `studio_view`, eligibility
propagates upward: whenever one entry is an ancestor of another (it precedes
it and every entry in between, endpoint included, is strictly deeper) and
the descendant is eligible, the ancestor is eligible too — equivalently, an
entry with `eligible = false` never has an eligible descendant, and in
particular every ancestor of an entry whose block reports `has_score` is
marked eligible. -/
theorem C8_eligible_upward (own_id : String) (root : BlockTree) (i j : Nat)
    (h : posAncestor (studio_view_tree own_id root) i j)
    (he : eAt (studio_view_tree own_id root) j = true) :
    eAt (studio_view_tree own_id root) i = true := by
  have inv0 : Inv ([] : List Entry) ([] : List Nat) := by
    refine ⟨⟨?_, ?_, ?_, ?_⟩, ?_⟩
    · intro i hi; exact absurd hi (by simp)
    · intro i hi; exact absurd hi (by simp)
    · intro i hi; exact absurd hi (by simp)
    · intro i j hi; exact absurd hi (by simp)
    · intro x y hxy; exact absurd hxy.2.1 (by simp)
  exact (build_forest_inv own_id root.children [] [] inv0).1.2 i j h he

/-- C8 witness: in the tree built from a course whose section contains a
scored problem, the section's entry precedes and is shallower than the
problem's, the problem's entry is eligible, and so is the section's. -/
theorem C8_eligible_upward_witness :
    posAncestor (studio_view_tree "me" root0) 0 1 ∧
    eAt (studio_view_tree "me" root0) 1 = true ∧
    eAt (studio_view_tree "me" root0) 0 = true :=
  ⟨by decide, rfl, C8_eligible_upward "me" root0 0 1 (by decide) rfl⟩

end GradeLeaderboard
